import Mathlib

/-!
Shallow embedding of `google/resumable_media/_download.py`: the byte-range
header builder (`add_bytes_range`) and the `Content-Range` response-header
parser (`get_range_info`), together with proofs of the specification claims.

Modelling conventions:
* A header mapping (Python `dict`) is an association list `List (String × String)`
  with insertion-order-preserving assignment (`dictSet`), matching CPython dict
  update semantics (replace in place when the key exists, append otherwise).
* Python `int` is `Int`; the captured regex groups are digit strings converted
  with `int_of_digits` (the embedding of `int(...)` on a decimal digit string).
* The regular expression `bytes (?P<start_byte>\d+)-(?P<end_byte>\d+)/(?P<total_bytes>\d+)`
  with `re.IGNORECASE`, applied with `re.match` (anchored at the start of the
  string only), is embedded as the deterministic scanner `contentRangeScan`:
  the pattern has no backtracking alternatives, since each greedy `\d+` run is
  followed by a non-digit literal, so the scanner computes exactly the regex
  match; `\d` is modelled as the ASCII digits `0`-`9`.
* Raising an exception is modelled with `Except`; the zero-argument failure
  callback (an effect) is modelled as a state transformer `σ → σ`, applied
  exactly where the source invokes `callback()`.
* The collaborators from `google.resumable_media._helpers` and
  `google.resumable_media.exceptions` are not part of the source fragment and
  are modelled from the spec, as marked on each such definition.
-/

namespace ResumableMedia

/-- A caller-owned header mapping: Python `dict` as an association list. -/
abbrev Headers := List (String × String)

/-- Python `dict` lookup `m[k]` / `m.get(k)` on the association-list model. -/
def lookupHeader : Headers → String → Option String
  | [], _ => none
  | (k', v') :: rest, k => if k' = k then some v' else lookupHeader rest k

/-- Python `dict` assignment `m[k] = v`: replaces the value in place when the
key is present, appends the pair otherwise. -/
def dictSet : Headers → String → String → Headers
  | [], k, v => [(k, v)]
  | (k', v') :: rest, k, v =>
    if k' = k then (k, v) :: rest else (k', v') :: dictSet rest k v

/-- Modelled from the spec: `_helpers.RANGE_HEADER`, the canonical `Range`
request-header key under which the builder stores its value (the module
`_helpers` is not part of the source fragment). -/
def RANGE_HEADER : String := "range"

/-- Modelled from the spec: `_helpers.CONTENT_RANGE_HEADER`, the name of the
`Content-Range` response header retrieved by the parser (the module
`_helpers` is not part of the source fragment). -/
def CONTENT_RANGE_HEADER : String := "content-range"

/-- An HTTP response object, duck-typed down to what this core consumes:
a header mapping. -/
structure Response where
  headers : Headers
deriving DecidableEq, Repr

/-- The failures this core can produce.
`missingHeader` is the distinct failure signalled by the header-lookup
collaborator when the header is absent; `invalidResponse` is modelled from
the spec's error type `InvalidResponse(response, message, observed_value,
expected_description)` (the module `exceptions` is not part of the source
fragment). -/
inductive Failure where
  | missingHeader (name : String)
  | invalidResponse (response : Response) (message : String)
      (observed : String) (expected : String)
deriving DecidableEq, Repr

/-- Modelled from the spec: `_helpers.header_required(response, header_name)`
returns the header value and fails when the header is absent (the module
`_helpers` is not part of the source fragment). -/
def header_required (response : Response) (name : String) :
    Except Failure String :=
  match lookupHeader response.headers name with
  | some value => Except.ok value
  | none => Except.error (Failure.missingHeader name)

/-- Modelled from the spec: `_helpers.do_nothing`, the default no-op failure
callback (the module `_helpers` is not part of the source fragment). On the
state-transformer model of the callback effect it is the identity. -/
def do_nothing {σ : Type} (st : σ) : σ := st

/-- The token written after `bytes=` by `add_bytes_range`: the source's local
variable `bytes_range`, `none` when both bounds are `None` (the early-return
branch that adds no header). `toString` on `Int` renders exactly like
Python `'{:d}'.format` (decimal, `-` sign for negatives). -/
def bytes_range (start : Option Int) (stop : Option Int) : Option String :=
  match start with
  | none =>
    match stop with
    | none => none
    | some e => some ("0-" ++ toString e)
  | some s =>
    match stop with
    | none =>
      if s < 0 then some (toString s) else some (toString s ++ "-")
    | some e => some (toString s ++ "-" ++ toString e)

/-- Embedding of `add_bytes_range(start, end, headers)`: adds a bytes range to
a header mapping; a no-op when both bounds are `None`, otherwise stores
`"bytes=" + bytes_range` under the `range` key. -/
def add_bytes_range (start : Option Int) (stop : Option Int)
    (headers : Headers) : Headers :=
  match bytes_range start stop with
  | none => headers
  | some tok => dictSet headers RANGE_HEADER ("bytes=" ++ tok)

/-- One character of the case-insensitive literal match performed by
`re.IGNORECASE` on the pattern's lowercase literal character `p`: for ASCII
this accepts exactly `p` and its uppercase variant. -/
def charMatchCI (c : Char) (p : Char) : Bool := c = p || c = p.toUpper

/-- The pattern literal `bytes ` (the `bytes` token and the single space
separator) of `_CONTENT_RANGE_RE`. -/
def bytesLit : List Char := ['b', 'y', 't', 'e', 's', ' ']

/-- Matches the literal `p` case-insensitively at the start of `s`, returning
the remainder of `s` on success. -/
def matchLiteral : List Char → List Char → Option (List Char)
  | [], s => some s
  | _ :: _, [] => none
  | p :: ps, c :: cs => if charMatchCI c p then matchLiteral ps cs else none

/-- One `(?P<...>\d+)` group: the greedy nonempty run of ASCII digits at the
start of `l`, with the remainder; fails when `l` does not start with a
digit. -/
def parseDigits (l : List Char) : Option (List Char × List Char) :=
  let d := l.takeWhile Char.isDigit
  if d.isEmpty then none else some (d, l.dropWhile Char.isDigit)

/-- The literal single-character match inside the pattern (`-` and `/`). -/
def expectChar (c : Char) : List Char → Option (List Char)
  | [] => none
  | x :: xs => if x = c then some xs else none

/-- Embedding of `_CONTENT_RANGE_RE.match(s)`: the pattern
`bytes (?P<start_byte>\d+)-(?P<end_byte>\d+)/(?P<total_bytes>\d+)` with
`re.IGNORECASE`, anchored at the start of the string but not at its end.
On success returns the three captured digit-groups and the unconsumed
remainder of the string (the part after the regex match's end position). -/
def contentRangeScan (l : List Char) :
    Option ((List Char × List Char × List Char) × List Char) :=
  (matchLiteral bytesLit l).bind fun r1 =>
    (parseDigits r1).bind fun dr1 =>
      (expectChar '-' dr1.2).bind fun r2 =>
        (parseDigits r2).bind fun dr2 =>
          (expectChar '/' dr2.2).bind fun r3 =>
            (parseDigits r3).bind fun dr3 =>
              some ((dr1.1, dr2.1, dr3.1), dr3.2)

/-- The match's captured groups, dropping the end position: `none` exactly when
`_CONTENT_RANGE_RE.match` returns `None`. -/
def contentRangeMatch (l : List Char) :
    Option (List Char × List Char × List Char) :=
  (contentRangeScan l).map Prod.fst

/-- Embedding of Python `int(...)` applied to a string of decimal digits. -/
def int_of_digits (l : List Char) : Int :=
  l.foldl (fun a c => a * 10 + ((c.toNat : Int) - 48)) 0

/-- The message string of the `InvalidResponse` raised on a malformed header. -/
def unexpectedRangeMsg : String := "Unexpected content-range header"

/-- The expected-format description of the `InvalidResponse` raised on a
malformed header. -/
def expectedFormatMsg : String :=
  "Expected to be of the form \"bytes \x7bstart\x7d-\x7bend\x7d/\x7btotal\x7d\""

/-- Embedding of `get_range_info(response, callback)`: retrieves the
`Content-Range` header via the header-lookup collaborator, matches it with
`_CONTENT_RANGE_RE`, and either returns the three groups as integers or
invokes the callback and fails with `InvalidResponse`. The callback is a
state transformer on `σ`; the returned state records the callback effects. -/
def get_range_info {σ : Type} (response : Response) (callback : σ → σ)
    (st : σ) : Except Failure (Int × Int × Int) × σ :=
  match header_required response CONTENT_RANGE_HEADER with
  | Except.error e => (Except.error e, st)
  | Except.ok content_range =>
    match contentRangeMatch content_range.toList with
    | none =>
      (Except.error (Failure.invalidResponse response unexpectedRangeMsg
          content_range expectedFormatMsg), callback st)
    | some (d1, d2, d3) =>
      (Except.ok (int_of_digits d1, int_of_digits d2, int_of_digits d3), st)

/-- Decidable equality for `Except`, so that concrete runs of the embedded
functions can be checked by `decide`. -/
instance exceptDecEq {ε α : Type} [DecidableEq ε] [DecidableEq α] :
    DecidableEq (Except ε α) := fun a b =>
  match a, b with
  | Except.ok x, Except.ok y =>
    if h : x = y then isTrue (by rw [h])
    else isFalse fun hc => h (Except.ok.inj hc)
  | Except.error x, Except.error y =>
    if h : x = y then isTrue (by rw [h])
    else isFalse fun hc => h (Except.error.inj hc)
  | Except.ok _, Except.error _ => isFalse Except.noConfusion
  | Except.error _, Except.ok _ => isFalse Except.noConfusion

/-- Follows the spec's words: case-insensitive match of one lowercase letter
of the `bytes` token — the character is the letter itself or its uppercase
variant. -/
def ciLetter (c p : Char) : Prop := c = p ∨ c = p.toUpper

/-- Follows the spec's words, with prefix (anchored-at-start-only) semantics:
the header value begins with `bytes {start}-{end}/{total}` — the `bytes`
token case-insensitively, a single space separator, three nonempty runs of
decimal digits separated by `-` and `/` — followed by an arbitrary
remainder. -/
def ContentRangeLead (v : String) : Prop :=
  ∃ tok d1 d2 d3 rest,
    v.toList = tok ++ ' ' :: (d1 ++ '-' :: (d2 ++ '/' :: (d3 ++ rest))) ∧
    List.Forall₂ ciLetter tok ['b', 'y', 't', 'e', 's'] ∧
    d1 ≠ [] ∧ d2 ≠ [] ∧ d3 ≠ [] ∧
    (∀ c ∈ d1, c.isDigit) ∧ (∀ c ∈ d2, c.isDigit) ∧ (∀ c ∈ d3, c.isDigit)

/-- Follows the spec's words as the claim reads them: the whole header value
is `bytes {start}-{end}/{total}` with no surrounding whitespace and no
extra characters beyond that (the `rest = []` case of `ContentRangeLead`). -/
def ContentRangeExact (v : String) : Prop :=
  ∃ tok d1 d2 d3,
    v.toList = tok ++ ' ' :: (d1 ++ '-' :: (d2 ++ '/' :: d3)) ∧
    List.Forall₂ ciLetter tok ['b', 'y', 't', 'e', 's'] ∧
    d1 ≠ [] ∧ d2 ≠ [] ∧ d3 ≠ [] ∧
    (∀ c ∈ d1, c.isDigit) ∧ (∀ c ∈ d2, c.isDigit) ∧ (∀ c ∈ d3, c.isDigit)

/-! ### Association-list (dict) lemmas -/

theorem lookup_dictSet_self (h : Headers) (k v : String) :
    lookupHeader (dictSet h k v) k = some v := by
  induction h with
  | nil => simp [dictSet, lookupHeader]
  | cons p rest ih =>
    obtain ⟨k', v'⟩ := p
    by_cases hk : k' = k
    · simp [dictSet, hk, lookupHeader]
    · simp [dictSet, hk, lookupHeader, ih]

theorem lookup_dictSet_ne (h : Headers) (k v k' : String) (hk : k' ≠ k) :
    lookupHeader (dictSet h k v) k' = lookupHeader h k' := by
  induction h with
  | nil => simp [dictSet, lookupHeader, Ne.symm hk]
  | cons p rest ih =>
    obtain ⟨k₀, v₀⟩ := p
    by_cases h₀ : k₀ = k
    · subst h₀
      simp [dictSet, lookupHeader, hk, Ne.symm hk]
    · simp [dictSet, h₀, lookupHeader, ih]

/-! ### Claims about `add_bytes_range` -/

/-- C3: with `start=None, end=None` the header mapping is returned completely
unchanged (no `range` key is added); for every other `(start, end)` input,
`add_bytes_range` writes only the single `range` key, leaving the value of
every other key of the caller-supplied mapping unchanged. -/
theorem add_bytes_range_frame (h : Headers) (s e : Option Int) (k : String)
    (hk : k ≠ RANGE_HEADER) :
    add_bytes_range none none h = h ∧
      lookupHeader (add_bytes_range s e h) k = lookupHeader h k := by
  refine ⟨rfl, ?_⟩
  unfold add_bytes_range
  cases bytes_range s e with
  | none => rfl
  | some tok => exact lookup_dictSet_ne h RANGE_HEADER _ k hk

/-- Closed instance of `add_bytes_range_frame`: the `x-goog-hash` key survives
a range write and the double-`None` call is the identity. -/
theorem add_bytes_range_frame_witness :
    "x-goog-hash" ≠ RANGE_HEADER ∧
      (add_bytes_range none none [("x-goog-hash", "crc32c=4gcgLQ==")] =
          [("x-goog-hash", "crc32c=4gcgLQ==")] ∧
        lookupHeader
            (add_bytes_range (some 500) (some 999)
              [("x-goog-hash", "crc32c=4gcgLQ==")]) "x-goog-hash" =
          lookupHeader [("x-goog-hash", "crc32c=4gcgLQ==")] "x-goog-hash") :=
  ⟨by decide,
    add_bytes_range_frame [("x-goog-hash", "crc32c=4gcgLQ==")]
      (some 500) (some 999) "x-goog-hash" (by decide)⟩

/-- C4: with both bounds set, `add_bytes_range` stores under the `range` key
exactly `bytes={S}-{E}`, for all integers `S` and `E` — no `start < end`
validation is performed (the statement has no hypothesis relating `S` and
`E`) and the function is total, hence side-effect-free beyond this single
key on any input. -/
theorem add_bytes_range_closed_interval (S E : Int) (h : Headers) :
    lookupHeader (add_bytes_range (some S) (some E) h) RANGE_HEADER =
      some ("bytes=" ++ toString S ++ "-" ++ toString E) := by
  unfold add_bytes_range bytes_range
  simpa using lookup_dictSet_self h RANGE_HEADER _

/-- C5: with `start=None` and `end=E ≥ 0`, `add_bytes_range` stores under the
`range` key exactly `bytes=0-{E}`. -/
theorem add_bytes_range_from_zero (E : Int) (h : Headers) (_hE : 0 ≤ E) :
    lookupHeader (add_bytes_range none (some E) h) RANGE_HEADER =
      some ("bytes=0-" ++ toString E) := by
  unfold add_bytes_range bytes_range
  simpa [String.append_assoc] using lookup_dictSet_self h RANGE_HEADER _

/-- Closed instance of `add_bytes_range_from_zero` at `E = 499` on an empty
mapping: the produced value is `bytes=0-499`. -/
theorem add_bytes_range_from_zero_witness :
    (0 : Int) ≤ 499 ∧
      lookupHeader (add_bytes_range none (some 499) []) RANGE_HEADER =
        some ("bytes=0-" ++ toString (499 : Int)) :=
  ⟨by decide, add_bytes_range_from_zero 499 [] (by decide)⟩

/-- C6: with `end=None`, `add_bytes_range` stores under the `range` key
exactly `bytes={S}-` when `S ≥ 0` and the suffix form `bytes={S}` (signed,
no trailing dash) when `S < 0`. -/
theorem add_bytes_range_open_ended (S : Int) (h : Headers) :
    lookupHeader (add_bytes_range (some S) none h) RANGE_HEADER =
      some (if S < 0 then "bytes=" ++ toString S
        else "bytes=" ++ toString S ++ "-") := by
  unfold add_bytes_range bytes_range
  by_cases hS : S < 0
  · simpa [hS] using lookup_dictSet_self h RANGE_HEADER _
  · simpa [hS] using lookup_dictSet_self h RANGE_HEADER _

/-! ### Scanner lemmas -/

theorem charMatchCI_iff (c p : Char) : charMatchCI c p = true ↔ ciLetter c p := by
  simp [charMatchCI, ciLetter]

theorem matchLiteral_append {u p : List Char}
    (h : List.Forall₂ (fun c q => charMatchCI c q = true) u p) (r : List Char) :
    matchLiteral p (u ++ r) = some r := by
  induction h with
  | nil => rfl
  | cons hcq _ ih => simpa [matchLiteral, hcq] using ih

theorem matchLiteral_sound {p s r : List Char} (h : matchLiteral p s = some r) :
    ∃ u, s = u ++ r ∧ List.Forall₂ (fun c q => charMatchCI c q = true) u p := by
  induction p generalizing s with
  | nil =>
    refine ⟨[], ?_, List.Forall₂.nil⟩
    simpa [matchLiteral] using h
  | cons q ps ih =>
    cases s with
    | nil => simp [matchLiteral] at h
    | cons c cs =>
      by_cases hc : charMatchCI c q = true
      · simp only [matchLiteral, hc, if_true] at h
        obtain ⟨u', rfl, hF⟩ := ih h
        exact ⟨c :: u', rfl, List.Forall₂.cons hc hF⟩
      · simp [matchLiteral, hc] at h

theorem takeWhile_append_all {p : Char → Bool} {l : List Char}
    (h : ∀ c ∈ l, p c = true) (r : List Char) :
    (l ++ r).takeWhile p = l ++ r.takeWhile p := by
  induction l with
  | nil => rfl
  | cons c l ih =>
    simp only [List.cons_append, List.takeWhile_cons, h c (by simp), if_true]
    simp [ih fun c hc => h c (by simp [hc])]

theorem dropWhile_append_all {p : Char → Bool} {l : List Char}
    (h : ∀ c ∈ l, p c = true) (r : List Char) :
    (l ++ r).dropWhile p = r.dropWhile p := by
  induction l with
  | nil => rfl
  | cons c l ih =>
    simp only [List.cons_append, List.dropWhile_cons, h c (by simp), if_true]
    exact ih fun c hc => h c (by simp [hc])

theorem parseDigits_append_run {d : List Char} (tail : List Char)
    (hd : ∀ c ∈ d, c.isDigit = true) (hne : d ≠ []) :
    parseDigits (d ++ tail) =
      some (d ++ tail.takeWhile Char.isDigit, tail.dropWhile Char.isDigit) := by
  unfold parseDigits
  rw [takeWhile_append_all hd, dropWhile_append_all hd]
  have : (d ++ tail.takeWhile Char.isDigit).isEmpty = false := by
    simp [List.isEmpty_eq_false, hne]
  simp [this]

theorem parseDigits_sound {l d r : List Char} (h : parseDigits l = some (d, r)) :
    l = d ++ r ∧ d ≠ [] ∧ ∀ c ∈ d, c.isDigit = true := by
  unfold parseDigits at h
  by_cases he : (l.takeWhile Char.isDigit).isEmpty = true
  · simp [he] at h
  · have he' : (l.takeWhile Char.isDigit).isEmpty = false := by simpa using he
    simp only [he', Bool.false_eq_true, if_false, Option.some_inj,
      Prod.mk.injEq] at h
    obtain ⟨hd, hr⟩ := h
    subst hd
    subst hr
    exact ⟨(List.takeWhile_append_dropWhile Char.isDigit l).symm,
      List.isEmpty_eq_false.mp he', fun c hc => List.mem_takeWhile_imp hc⟩

theorem expectChar_cons (c : Char) (r : List Char) :
    expectChar c (c :: r) = some r := by
  simp [expectChar]

theorem expectChar_sound {c : Char} {l r : List Char}
    (h : expectChar c l = some r) : l = c :: r := by
  cases l with
  | nil => simp [expectChar] at h
  | cons x xs =>
    by_cases hx : x = c
    · subst hx
      simpa [expectChar] using congrArg (x :: ·) (Option.some_inj.mp (by simpa [expectChar] using h))
    · simp [expectChar, hx] at h

theorem contentRangeScan_decomp (tok d1 d2 d3 tail : List Char)
    (htok : List.Forall₂ ciLetter tok ['b', 'y', 't', 'e', 's'])
    (h1 : d1 ≠ []) (h2 : d2 ≠ []) (h3 : d3 ≠ [])
    (hd1 : ∀ c ∈ d1, c.isDigit) (hd2 : ∀ c ∈ d2, c.isDigit)
    (hd3 : ∀ c ∈ d3, c.isDigit) :
    contentRangeScan (tok ++ ' ' :: (d1 ++ '-' :: (d2 ++ '/' :: (d3 ++ tail)))) =
      some ((d1, d2, d3 ++ tail.takeWhile Char.isDigit),
        tail.dropWhile Char.isDigit) := by
  have hciB : List.Forall₂ (fun c q => charMatchCI c q = true)
      (tok ++ [' ']) bytesLit := by
    have hbase := htok.imp fun a b hab => (charMatchCI_iff a b).mpr hab
    have hsp : List.Forall₂ (fun c q => charMatchCI c q = true) [' '] [' '] :=
      List.Forall₂.cons (by decide) List.Forall₂.nil
    exact List.rel_append hbase hsp
  have hml : matchLiteral bytesLit
      ((tok ++ [' ']) ++ (d1 ++ '-' :: (d2 ++ '/' :: (d3 ++ tail)))) =
      some (d1 ++ '-' :: (d2 ++ '/' :: (d3 ++ tail)))  := matchLiteral_append hciB _
  have hlist : tok ++ ' ' :: (d1 ++ '-' :: (d2 ++ '/' :: (d3 ++ tail))) =
      (tok ++ [' ']) ++ (d1 ++ '-' :: (d2 ++ '/' :: (d3 ++ tail))) := by simp
  have hdash : ('-').isDigit = false := by decide
  have hslash : ('/').isDigit = false := by decide
  unfold contentRangeScan
  rw [hlist, hml]
  simp only [Option.some_bind]
  rw [parseDigits_append_run _ hd1 h1]
  simp only [Option.some_bind, List.takeWhile_cons, List.dropWhile_cons, hdash,
    if_false, List.append_nil, Bool.false_eq_true]
  rw [expectChar_cons]
  simp only [Option.some_bind]
  rw [parseDigits_append_run _ hd2 h2]
  simp only [Option.some_bind, List.takeWhile_cons, List.dropWhile_cons, hslash,
    if_false, List.append_nil, Bool.false_eq_true]
  rw [expectChar_cons]
  simp only [Option.some_bind]
  rw [parseDigits_append_run tail hd3 h3]
  simp only [Option.some_bind]

theorem contentRangeScan_sound {l d1 d2 d3 rest : List Char}
    (h : contentRangeScan l = some ((d1, d2, d3), rest)) :
    ∃ tok, l = tok ++ ' ' :: (d1 ++ '-' :: (d2 ++ '/' :: (d3 ++ rest))) ∧
      List.Forall₂ ciLetter tok ['b', 'y', 't', 'e', 's'] ∧
      d1 ≠ [] ∧ d2 ≠ [] ∧ d3 ≠ [] ∧
      (∀ c ∈ d1, c.isDigit) ∧ (∀ c ∈ d2, c.isDigit) ∧ (∀ c ∈ d3, c.isDigit) := by
  unfold contentRangeScan at h
  rw [Option.bind_eq_some] at h
  obtain ⟨r1, hml, h⟩ := h
  rw [Option.bind_eq_some] at h
  obtain ⟨⟨e1, s1⟩, hp1, h⟩ := h
  simp only [Option.bind_eq_some] at h
  obtain ⟨r2, hx1, ⟨e2, s2⟩, hp2, r3, hx2, ⟨e3, s3⟩, hp3, hfin⟩ := h
  simp only [Option.some_inj, Prod.mk.injEq] at hfin
  obtain ⟨⟨rfl, rfl, rfl⟩, rfl⟩ := hfin
  obtain ⟨u, rfl, hu⟩ := matchLiteral_sound hml
  obtain ⟨rfl, hne1, hdig1⟩ := parseDigits_sound hp1
  have hx1' := expectChar_sound hx1
  subst hx1'
  obtain ⟨rfl, hne2, hdig2⟩ := parseDigits_sound hp2
  have hx2' := expectChar_sound hx2
  subst hx2'
  obtain ⟨rfl, hne3, hdig3⟩ := parseDigits_sound hp3
  have h5 : List.Forall₂ (fun c q => charMatchCI c q = true)
      (u.take 5) ['b', 'y', 't', 'e', 's'] := by
    have := List.forall₂_take_append u ['b', 'y', 't', 'e', 's'] [' '] hu
    simpa using this
  have h6 : List.Forall₂ (fun c q => charMatchCI c q = true) (u.drop 5) [' '] := by
    have := List.forall₂_drop_append u ['b', 'y', 't', 'e', 's'] [' '] hu
    simpa using this
  obtain ⟨c6, u6, hc6, hnil, hdrop⟩ := List.forall₂_cons_right_iff.mp h6
  have hu6 : u6 = [] := by
    cases hnil
    rfl
  subst hu6
  have hc6' : c6 = ' ' := by
    have := (charMatchCI_iff c6 ' ').mp hc6
    simpa [ciLetter] using this
  subst hc6'
  refine ⟨u.take 5, ?_, h5.imp fun a b hab => (charMatchCI_iff a b).mp hab,
    hne1, hne2, hne3, hdig1, hdig2, hdig3⟩
  have husplit : u = u.take 5 ++ [' '] := by
    conv_lhs => rw [← List.take_append_drop 5 u]
    rw [hdrop]
  conv_lhs => rw [husplit]
  simp

theorem int_of_digits_foldl_nonneg {l : List Char} (a : Int) (ha : 0 ≤ a)
    (h : ∀ c ∈ l, c.isDigit = true) :
    0 ≤ l.foldl (fun b c => b * 10 + ((c.toNat : Int) - 48)) a := by
  induction l generalizing a with
  | nil => simpa using ha
  | cons c l ih =>
    have hc : 48 ≤ c.toNat := by
      have := h c (by simp)
      simp [Char.isDigit] at this
      exact this.1
    have hc' : (48 : Int) ≤ (c.toNat : Int) := by exact_mod_cast hc
    refine ih _ ?_ fun x hx => h x (by simp [hx])
    have h10 : 0 ≤ a * 10 := by positivity
    show 0 ≤ a * 10 + ((c.toNat : Int) - 48)
    omega

theorem int_of_digits_nonneg {l : List Char}
    (h : ∀ c ∈ l, c.isDigit = true) : 0 ≤ int_of_digits l :=
  int_of_digits_foldl_nonneg 0 le_rfl h

/-! ### `get_range_info` computation lemmas -/

theorem header_required_of_lookup {resp : Response} {name v : String}
    (hv : lookupHeader resp.headers name = some v) :
    header_required resp name = Except.ok v := by
  unfold header_required
  rw [hv]

theorem get_range_info_of_match {σ : Type} {resp : Response} {v : String}
    {d1 d2 d3 : List Char} (cb : σ → σ) (st : σ)
    (hv : lookupHeader resp.headers CONTENT_RANGE_HEADER = some v)
    (hm : contentRangeMatch v.toList = some (d1, d2, d3)) :
    get_range_info resp cb st =
      (Except.ok (int_of_digits d1, int_of_digits d2, int_of_digits d3), st) := by
  unfold get_range_info
  rw [header_required_of_lookup hv]
  simp only [hm]

theorem get_range_info_of_no_match {σ : Type} {resp : Response} {v : String}
    (cb : σ → σ) (st : σ)
    (hv : lookupHeader resp.headers CONTENT_RANGE_HEADER = some v)
    (hm : contentRangeMatch v.toList = none) :
    get_range_info resp cb st =
      (Except.error (Failure.invalidResponse resp unexpectedRangeMsg v
        expectedFormatMsg), cb st) := by
  unfold get_range_info
  rw [header_required_of_lookup hv]
  simp only [hm]

theorem contentRangeMatch_isSome_iff (v : String) :
    (∃ g, contentRangeMatch v.toList = some g) ↔ ContentRangeLead v := by
  constructor
  · rintro ⟨g, hg⟩
    unfold contentRangeMatch at hg
    obtain ⟨⟨g', rest⟩, hscan, -⟩ := Option.map_eq_some'.mp hg
    obtain ⟨d1, d2, d3⟩ := g'
    obtain ⟨tok, hl, htok, h1, h2, h3, hd1, hd2, hd3⟩ :=
      contentRangeScan_sound hscan
    exact ⟨tok, d1, d2, d3, rest, hl, htok, h1, h2, h3, hd1, hd2, hd3⟩
  · rintro ⟨tok, d1, d2, d3, rest, hl, htok, h1, h2, h3, hd1, hd2, hd3⟩
    refine ⟨(d1, d2, d3 ++ rest.takeWhile Char.isDigit), ?_⟩
    unfold contentRangeMatch
    rw [hl, contentRangeScan_decomp tok d1 d2 d3 rest htok h1 h2 h3 hd1 hd2 hd3]
    rfl

/-! ### Claims about `get_range_info` -/

/-- C1 (amended): with the `Content-Range` header present with value `v`,
`get_range_info` fails with `InvalidResponse` — carrying the response
object, the message, the offending header value and the expected-format
description — if and only if `v` does not *begin* with (rather than: is
not exactly) `bytes {start}-{end}/{total}`, case-insensitive on `bytes`,
with a single space separator and no leading whitespace; characters
trailing after the total are accepted, not rejected. -/
theorem get_range_info_invalid_iff {σ : Type} (resp : Response) (v : String)
    (cb : σ → σ) (st : σ)
    (hv : lookupHeader resp.headers CONTENT_RANGE_HEADER = some v) :
    get_range_info resp cb st =
        (Except.error (Failure.invalidResponse resp unexpectedRangeMsg v
          expectedFormatMsg), cb st) ↔
      ¬ ContentRangeLead v := by
  cases hm : contentRangeMatch v.toList with
  | none =>
    refine iff_of_true (get_range_info_of_no_match cb st hv hm) fun hlead => ?_
    obtain ⟨g, hg⟩ := (contentRangeMatch_isSome_iff v).mpr hlead
    rw [hm] at hg
    exact Option.noConfusion hg
  | some g =>
    obtain ⟨d1, d2, d3⟩ := g
    refine iff_of_false ?_ ?_
    · rw [get_range_info_of_match cb st hv hm]
      intro hcontra
      have := congrArg Prod.fst hcontra
      simp at this
    · intro hnot
      exact hnot ((contentRangeMatch_isSome_iff v).mp ⟨_, hm⟩)

/-- Closed instance of `get_range_info_invalid_iff` on the header value
`chunks 0-1023/2048`. -/
theorem get_range_info_invalid_iff_witness :
    (lookupHeader (Response.mk [("content-range", "chunks 0-1023/2048")]).headers
        CONTENT_RANGE_HEADER = some "chunks 0-1023/2048") ∧
      (get_range_info (Response.mk [("content-range", "chunks 0-1023/2048")])
          Nat.succ 0 =
        (Except.error (Failure.invalidResponse
          (Response.mk [("content-range", "chunks 0-1023/2048")])
          unexpectedRangeMsg "chunks 0-1023/2048" expectedFormatMsg), Nat.succ 0) ↔
      ¬ ContentRangeLead "chunks 0-1023/2048") :=
  ⟨by decide,
    get_range_info_invalid_iff (Response.mk [("content-range", "chunks 0-1023/2048")])
      "chunks 0-1023/2048" Nat.succ 0 (by decide)⟩

/-- C1 counterexample: the header value `bytes 500-999/1000x` carries trailing
characters after the total — so it does not match the claimed grammar
exactly — yet `get_range_info` does not raise: it returns `(500, 999, 1000)`
without invoking the failure callback. -/
theorem get_range_info_trailing_accepted :
    ¬ ContentRangeExact "bytes 500-999/1000x" ∧
      get_range_info (Response.mk [("content-range", "bytes 500-999/1000x")])
          Nat.succ 0 =
        (Except.ok ((500 : Int), (999 : Int), (1000 : Int)), 0) := by
  constructor
  · rintro ⟨tok, d1, d2, d3, hl, htok, h1, h2, h3, hd1, hd2, hd3⟩
    have hscan := contentRangeScan_decomp tok d1 d2 d3 [] htok h1 h2 h3 hd1 hd2 hd3
    rw [show d1 ++ '-' :: (d2 ++ '/' :: (d3 ++ [])) =
      d1 ++ '-' :: (d2 ++ '/' :: d3) by simp] at hscan
    rw [← hl] at hscan
    have hx : contentRangeScan "bytes 500-999/1000x".toList =
        some ((['5', '0', '0'], ['9', '9', '9'], ['1', '0', '0', '0']), ['x']) := by
      decide
    rw [hx] at hscan
    simp at hscan
  · decide

/-- C2: on a response whose `Content-Range` value matches
`bytes {start}-{end}/{total}` — three nonempty decimal-digit groups, with no
constraint whatsoever relating the three values (no `start ≤ end ≤ total`
bounds checking) — `get_range_info` returns exactly the triple of the three
groups parsed as integers, without invoking the callback. -/
theorem get_range_info_parses_groups {σ : Type} (resp : Response)
    (cb : σ → σ) (st : σ) (v : String) (tok d1 d2 d3 : List Char)
    (hv : lookupHeader resp.headers CONTENT_RANGE_HEADER = some v)
    (heq : v.toList = tok ++ ' ' :: (d1 ++ '-' :: (d2 ++ '/' :: d3)))
    (htok : List.Forall₂ ciLetter tok ['b', 'y', 't', 'e', 's'])
    (h1 : d1 ≠ []) (h2 : d2 ≠ []) (h3 : d3 ≠ [])
    (hd1 : ∀ c ∈ d1, c.isDigit) (hd2 : ∀ c ∈ d2, c.isDigit)
    (hd3 : ∀ c ∈ d3, c.isDigit) :
    get_range_info resp cb st =
      (Except.ok (int_of_digits d1, int_of_digits d2, int_of_digits d3), st) := by
  have hscan := contentRangeScan_decomp tok d1 d2 d3 [] htok h1 h2 h3 hd1 hd2 hd3
  rw [show d1 ++ '-' :: (d2 ++ '/' :: (d3 ++ [])) =
    d1 ++ '-' :: (d2 ++ '/' :: d3) by simp] at hscan
  rw [← heq] at hscan
  refine get_range_info_of_match cb st hv ?_
  unfold contentRangeMatch
  rw [hscan]
  simp

/-- Closed instance of `get_range_info_parses_groups`: the header
`bytes 500-999/1000` yields `(500, 999, 1000)`. -/
theorem get_range_info_parses_groups_witness :
    get_range_info (Response.mk [("content-range", "bytes 500-999/1000")])
        Nat.succ 0 =
      (Except.ok ((500 : Int), (999 : Int), (1000 : Int)), 0) := by
  have h := get_range_info_parses_groups
    (Response.mk [("content-range", "bytes 500-999/1000")]) Nat.succ 0
    "bytes 500-999/1000" ['b', 'y', 't', 'e', 's'] ['5', '0', '0']
    ['9', '9', '9'] ['1', '0', '0', '0'] (by decide) (by decide)
    (List.forall₂_same.mpr fun a _ => Or.inl rfl)
    (by decide) (by decide) (by decide) (by decide) (by decide) (by decide)
  exact h.trans (by decide)

/-- C7: when the `Content-Range` header is present but malformed,
`get_range_info` invokes the failure callback exactly once — with a counting
callback the instrumentation state rises from `n` to `n + 1` — and the
`InvalidResponse` failure still propagates (the callback does not suppress
it); with the default no-op callback `do_nothing` the error path is
unchanged and the state untouched. -/
theorem get_range_info_malformed_callback {σ : Type} (resp : Response)
    (v : String) (cb : σ → σ) (st : σ)
    (hv : lookupHeader resp.headers CONTENT_RANGE_HEADER = some v)
    (hm : contentRangeMatch v.toList = none) :
    get_range_info resp cb st =
        (Except.error (Failure.invalidResponse resp unexpectedRangeMsg v
          expectedFormatMsg), cb st) ∧
      (∀ n : Nat, get_range_info resp Nat.succ n =
        (Except.error (Failure.invalidResponse resp unexpectedRangeMsg v
          expectedFormatMsg), n + 1)) ∧
      get_range_info resp (do_nothing : σ → σ) st =
        (Except.error (Failure.invalidResponse resp unexpectedRangeMsg v
          expectedFormatMsg), st) :=
  ⟨get_range_info_of_no_match cb st hv hm,
    fun n => get_range_info_of_no_match Nat.succ n hv hm,
    get_range_info_of_no_match do_nothing st hv hm⟩

/-- Closed instance of `get_range_info_malformed_callback` on the malformed
header `bytes abc-999/1000`: the counting callback records exactly one
invocation and the error carries the offending value. -/
theorem get_range_info_malformed_callback_witness :
    contentRangeMatch "bytes abc-999/1000".toList = none ∧
      get_range_info (Response.mk [("content-range", "bytes abc-999/1000")])
          Nat.succ 0 =
        (Except.error (Failure.invalidResponse
          (Response.mk [("content-range", "bytes abc-999/1000")])
          unexpectedRangeMsg "bytes abc-999/1000" expectedFormatMsg), 1) :=
  ⟨by decide,
    ((get_range_info_malformed_callback
      (Response.mk [("content-range", "bytes abc-999/1000")])
      "bytes abc-999/1000" Nat.succ 0 (by decide) (by decide)).2.1 0)⟩

theorem contentRangeScan_tok_casing (tok rest : List Char)
    (htok : List.Forall₂ ciLetter tok ['b', 'y', 't', 'e', 's']) :
    contentRangeScan (tok ++ ' ' :: rest) =
      contentRangeScan ('b' :: 'y' :: 't' :: 'e' :: 's' :: ' ' :: rest) := by
  have hciB : List.Forall₂ (fun c q => charMatchCI c q = true)
      (tok ++ [' ']) bytesLit := by
    have hbase := htok.imp fun a b hab => (charMatchCI_iff a b).mpr hab
    exact List.rel_append hbase
      (List.Forall₂.cons (by decide) List.Forall₂.nil)
  have hlow : List.Forall₂ (fun c q => charMatchCI c q = true)
      bytesLit bytesLit :=
    List.forall₂_same.mpr fun a _ => by simp [charMatchCI]
  have h1 : matchLiteral bytesLit (tok ++ ' ' :: rest) = some rest := by
    rw [show tok ++ ' ' :: rest = (tok ++ [' ']) ++ rest by simp]
    exact matchLiteral_append hciB rest
  have h2 : matchLiteral bytesLit
      ('b' :: 'y' :: 't' :: 'e' :: 's' :: ' ' :: rest) = some rest := by
    rw [show 'b' :: 'y' :: 't' :: 'e' :: 's' :: ' ' :: rest =
      bytesLit ++ rest from rfl]
    exact matchLiteral_append hlow rest
  unfold contentRangeScan
  rw [h1, h2]

/-- C8: parsing is case-insensitive on the `bytes` token only — replacing the
token of a successfully parsing header value by any other casing leaves the
parsed `(start, end, total)` result of `get_range_info` identical — while a
wrong unit token, `chunks 0-1023/2048`, fails with the malformed-range
`InvalidResponse` error. -/
theorem get_range_info_case_insensitive {σ : Type} (resp resp' : Response)
    (tok rest d1 d2 d3 rem : List Char) (cb : σ → σ) (st : σ)
    (htok : List.Forall₂ ciLetter tok ['b', 'y', 't', 'e', 's'])
    (hv : lookupHeader resp.headers CONTENT_RANGE_HEADER =
      some (String.mk (tok ++ ' ' :: rest)))
    (hv' : lookupHeader resp'.headers CONTENT_RANGE_HEADER =
      some (String.mk ('b' :: 'y' :: 't' :: 'e' :: 's' :: ' ' :: rest)))
    (hscan : contentRangeScan ('b' :: 'y' :: 't' :: 'e' :: 's' :: ' ' :: rest) =
      some ((d1, d2, d3), rem)) :
    (get_range_info resp cb st =
        (Except.ok (int_of_digits d1, int_of_digits d2, int_of_digits d3), st) ∧
      get_range_info resp' cb st =
        (Except.ok (int_of_digits d1, int_of_digits d2, int_of_digits d3), st)) ∧
      get_range_info (Response.mk [("content-range", "chunks 0-1023/2048")])
          Nat.succ 0 =
        (Except.error (Failure.invalidResponse
          (Response.mk [("content-range", "chunks 0-1023/2048")])
          unexpectedRangeMsg "chunks 0-1023/2048" expectedFormatMsg), 1) := by
  have hm' : contentRangeMatch
      (String.mk ('b' :: 'y' :: 't' :: 'e' :: 's' :: ' ' :: rest)).toList =
      some (d1, d2, d3) := by
    unfold contentRangeMatch
    rw [show (String.mk ('b' :: 'y' :: 't' :: 'e' :: 's' :: ' ' :: rest)).toList =
      'b' :: 'y' :: 't' :: 'e' :: 's' :: ' ' :: rest from rfl, hscan]
    rfl
  have hm : contentRangeMatch (String.mk (tok ++ ' ' :: rest)).toList =
      some (d1, d2, d3) := by
    unfold contentRangeMatch
    rw [show (String.mk (tok ++ ' ' :: rest)).toList =
      tok ++ ' ' :: rest from rfl]
    rw [contentRangeScan_tok_casing tok rest htok, hscan]
    rfl
  exact ⟨⟨get_range_info_of_match cb st hv hm,
    get_range_info_of_match cb st hv' hm'⟩, by decide⟩

/-- Closed instance of `get_range_info_case_insensitive`: `Bytes 0-0/1`
parses identically to `bytes 0-0/1`, both yielding `(0, 0, 1)`. -/
theorem get_range_info_case_insensitive_witness :
    (get_range_info (Response.mk [("content-range", "Bytes 0-0/1")])
          Nat.succ 0 =
        (Except.ok (int_of_digits ['0'], int_of_digits ['0'],
          int_of_digits ['1']), 0) ∧
      get_range_info (Response.mk [("content-range", "bytes 0-0/1")])
          Nat.succ 0 =
        (Except.ok (int_of_digits ['0'], int_of_digits ['0'],
          int_of_digits ['1']), 0)) ∧
      get_range_info (Response.mk [("content-range", "chunks 0-1023/2048")])
          Nat.succ 0 =
        (Except.error (Failure.invalidResponse
          (Response.mk [("content-range", "chunks 0-1023/2048")])
          unexpectedRangeMsg "chunks 0-1023/2048" expectedFormatMsg), 1) :=
  get_range_info_case_insensitive
    (Response.mk [("content-range", "Bytes 0-0/1")])
    (Response.mk [("content-range", "bytes 0-0/1")])
    ['B', 'y', 't', 'e', 's'] "0-0/1".toList ['0'] ['0'] ['1'] [] Nat.succ 0
    (List.Forall₂.cons (Or.inr (by decide))
      (List.forall₂_same.mpr fun a _ => Or.inl rfl))
    (by decide) (by decide) (by decide)

/-- C9: whenever `get_range_info` returns successfully, all three components
of the returned `(start, end, total)` triple are non-negative integers; a
triple is produced only on the successful-parse path. -/
theorem get_range_info_nonneg {σ : Type} (resp : Response) (cb : σ → σ)
    (st st' : σ) (s e t : Int)
    (h : get_range_info resp cb st = (Except.ok (s, e, t), st')) :
    0 ≤ s ∧ 0 ≤ e ∧ 0 ≤ t := by
  unfold get_range_info at h
  cases hh : header_required resp CONTENT_RANGE_HEADER with
  | error err => rw [hh] at h; simp at h
  | ok v =>
    rw [hh] at h
    cases hm : contentRangeMatch v.toList with
    | none => simp only [hm] at h; simp at h
    | some g =>
      obtain ⟨d1, d2, d3⟩ := g
      simp only [hm, Prod.mk.injEq, Except.ok.injEq] at h
      obtain ⟨⟨rfl, rfl, rfl⟩, -⟩ := h
      unfold contentRangeMatch at hm
      obtain ⟨⟨g', rest⟩, hscan, hfst⟩ := Option.map_eq_some'.mp hm
      obtain ⟨e1, e2, e3⟩ := g'
      obtain ⟨-, -, -, -, -, -, hd1, hd2, hd3⟩ := contentRangeScan_sound hscan
      obtain ⟨rfl, rfl, rfl⟩ : e1 = d1 ∧ e2 = d2 ∧ e3 = d3 := by
        simpa [Prod.ext_iff] using hfst
      exact ⟨int_of_digits_nonneg hd1, int_of_digits_nonneg hd2,
        int_of_digits_nonneg hd3⟩

/-- Closed instance of `get_range_info_nonneg` at the successful parse of
`bytes 500-999/1000`. -/
theorem get_range_info_nonneg_witness :
    get_range_info (Response.mk [("content-range", "bytes 500-999/1000")])
        Nat.succ 0 = (Except.ok ((500 : Int), (999 : Int), (1000 : Int)), 0) ∧
      ((0 : Int) ≤ 500 ∧ (0 : Int) ≤ 999 ∧ (0 : Int) ≤ 1000) :=
  ⟨by decide,
    get_range_info_nonneg (Response.mk [("content-range", "bytes 500-999/1000")])
      Nat.succ 0 0 500 999 1000 (by decide)⟩

/-- C10: when the `Content-Range` header is absent, `get_range_info` fails
with the distinct `missingHeader` failure propagated from the
`header_required` collaborator — never equal to any malformed-range
`InvalidResponse` — and the failure callback is not invoked (the
instrumentation state is returned unchanged, for every callback). -/
theorem get_range_info_missing_header {σ : Type} (resp : Response)
    (cb : σ → σ) (st : σ)
    (h : lookupHeader resp.headers CONTENT_RANGE_HEADER = none) :
    get_range_info resp cb st =
        (Except.error (Failure.missingHeader CONTENT_RANGE_HEADER), st) ∧
      (∀ n : Nat, get_range_info resp Nat.succ n =
        (Except.error (Failure.missingHeader CONTENT_RANGE_HEADER), n)) ∧
      ∀ m o ex, Failure.missingHeader CONTENT_RANGE_HEADER ≠
        Failure.invalidResponse resp m o ex := by
  have hreq : header_required resp CONTENT_RANGE_HEADER =
      Except.error (Failure.missingHeader CONTENT_RANGE_HEADER) := by
    unfold header_required
    rw [h]
  refine ⟨?_, fun n => ?_, fun m o ex => by simp⟩
  · unfold get_range_info
    rw [hreq]
  · unfold get_range_info
    rw [hreq]

/-- Closed instance of `get_range_info_missing_header` on a response carrying
only a `content-length` header. -/
theorem get_range_info_missing_header_witness :
    get_range_info (Response.mk [("content-length", "42")]) Nat.succ 0 =
        (Except.error (Failure.missingHeader CONTENT_RANGE_HEADER), 0) ∧
      (∀ n : Nat, get_range_info (Response.mk [("content-length", "42")])
          Nat.succ n =
        (Except.error (Failure.missingHeader CONTENT_RANGE_HEADER), n)) ∧
      ∀ m o ex, Failure.missingHeader CONTENT_RANGE_HEADER ≠
        Failure.invalidResponse (Response.mk [("content-length", "42")]) m o ex :=
  get_range_info_missing_header (Response.mk [("content-length", "42")])
    Nat.succ 0 (by decide)

end ResumableMedia
